import Mathlib

/-!
Shallow embedding of `src/wgpu-native/src/hub.rs` (the resource-handle
registry of wgpu-native): `Id`, `IdentityManager`, `Storage`, `Registry`.

Modelling conventions, chosen to follow the Rust source line by line:

* `Index` and `Epoch` are `u32` in the source.  Indices are modelled as
  `Nat`: the only place a width could matter is the `as Index` cast of
  `epochs.len()` in `alloc`, which is lossless below `2^32` slots.  The
  epoch increment `*pe += 1` in `free` is modelled with an explicit
  `% 2^32`, matching release-mode wraparound (spec §9 flags this
  wraparound as a known residual risk; debug builds would panic there).
* Rust panics (`assert!`, `assert_eq!`, out-of-bounds indexing, and
  `Option::unwrap` on `None`) are modelled as `Except.error` values of
  type `HubError`; every operation returns its post-state together with
  the result, so that mutations performed *before* a failing assertion
  remain visible in the post-state, exactly as they do in the Rust code
  (the failing `assert!` in `Registry::register` runs after the map
  insertion, for example).
* `cfg!(debug_assertions)` is modelled by an explicit `dbg : Bool`
  argument on the operations that test it.
* The `free` field of `IdentityManager` is a Rust `Vec` used as a stack
  (`push`/`pop` at the back).  It is modelled as a Lean `List` whose
  *head* is the top of the stack.
* `Registry` is modelled with the `local` cargo feature enabled (the
  configuration in which it owns an `IdentityManager`); the locks
  (`Mutex`, `RwLock`) guard single operations and are not modelled:
  every operation is one atomic step on the combined state.
* `VecMap<(T, Epoch)>` is modelled as `List (Option (T × Nat))` indexed
  by position, with `vmGet` / `vmInsert` / `vmRemove` mirroring
  `VecMap::get` / `insert` / `remove`.
-/

namespace Wgpu

/-- `2^32`, the modulus of the `u32` epoch counter. -/
def U32 : Nat := 4294967296

/-- `Id(Index, Epoch)` from hub.rs; `index`/`epoch` are the `NewId`
accessors. -/
structure Id where
  index : Nat
  epoch : Nat
  deriving DecidableEq, Repr

/-- The panics of hub.rs, one constructor per distinct failing check:
`StaleHandle` for `assert_eq!` on epochs, `DoubleFree` for the
debug-only `assert!(!self.free.contains(&index))`, `AlreadyRegistered`
for `assert!(old.is_none())` in `register`, `IndexOutOfBounds` for
slice/`VecMap` indexing panics, `UnwrapFailed` for `.unwrap()` on
`None`. -/
inductive HubError where
  | StaleHandle
  | DoubleFree
  | AlreadyRegistered
  | IndexOutOfBounds
  | UnwrapFailed
  deriving DecidableEq, Repr

/-- Decidable equality of results, so that concrete runs of the model can
be checked by `decide`. -/
instance {ε α : Type} [DecidableEq ε] [DecidableEq α] :
    DecidableEq (Except ε α) := fun x y =>
  match x, y with
  | .ok a, .ok b =>
    if h : a = b then .isTrue (by rw [h]) else .isFalse fun hh => h (Except.ok.inj hh)
  | .ok _, .error _ => .isFalse fun hh => Except.noConfusion hh
  | .error _, .ok _ => .isFalse fun hh => Except.noConfusion hh
  | .error a, .error b =>
    if h : a = b then .isTrue (by rw [h]) else .isFalse fun hh => h (Except.error.inj hh)

/-- `IdentityManager { free: Vec<Index>, epochs: Vec<Epoch> }`; the head
of `freeList` is the top of the `Vec` stack (its `push`/`pop` end). -/
structure IdentityManager where
  freeList : List Nat
  epochs : List Nat
  deriving DecidableEq, Repr

/-- `IdentityManager::default()`. -/
def IdentityManager.empty : IdentityManager := ⟨[], []⟩

/-- `IdentityManager::alloc`.  Pops the free-list; a popped index is read
in `self.epochs[index as usize]` (out-of-bounds panic if the free-list
entry is out of range — the pop has already happened at that point).
With an empty free-list it appends a fresh epoch `1` slot. -/
def IdentityManager.alloc (m : IdentityManager) :
    IdentityManager × Except HubError Id :=
  match m.freeList with
  | i :: rest =>
    match m.epochs[i]? with
    | some e => ({ m with freeList := rest }, .ok ⟨i, e⟩)
    | none => ({ m with freeList := rest }, .error .IndexOutOfBounds)
  | [] => (⟨[], m.epochs ++ [1]⟩, .ok ⟨m.epochs.length, 1⟩)

/-- `IdentityManager::free`.  In source order: the debug-only
`assert!(!self.free.contains(&index))`, then `&mut self.epochs[index]`
(out-of-bounds panic), then `assert_eq!(*pe, epoch)`, then the increment
(with `u32` wraparound) and the push onto the free-list. -/
def IdentityManager.free (m : IdentityManager) (dbg : Bool) (h : Id) :
    IdentityManager × Except HubError Unit :=
  if dbg && m.freeList.contains h.index then
    (m, .error .DoubleFree)
  else
    match m.epochs[h.index]? with
    | none => (m, .error .IndexOutOfBounds)
    | some e =>
      if e = h.epoch then
        (⟨h.index :: m.freeList, m.epochs.set h.index ((e + 1) % U32)⟩, .ok ())
      else
        (m, .error .StaleHandle)

/-- `VecMap::get(i)`. -/
def vmGet (m : List (Option α)) (i : Nat) : Option α :=
  m.getD i none

/-- `VecMap::insert(i, v)`: returns the previous entry and stores `v`,
growing the backing vector as needed. -/
def vmInsert (m : List (Option α)) (i : Nat) (v : α) :
    Option α × List (Option α) :=
  (m.getD i none, (m ++ List.replicate (i + 1 - m.length) none).set i (some v))

/-- `VecMap::remove(i)`: returns the previous entry and clears the
position. -/
def vmRemove (m : List (Option α)) (i : Nat) : Option α × List (Option α) :=
  (m.getD i none, m.set i none)

/-- `Storage<T, I> { map: VecMap<(T, Epoch)> }`. -/
structure Storage (T : Type) where
  map : List (Option (T × Nat))
  deriving DecidableEq, Repr

/-- `Storage::contains`: `map.get` then epoch comparison; never panics. -/
def Storage.contains (s : Storage T) (h : Id) : Bool :=
  match vmGet s.map h.index with
  | some (_, e) => e == h.epoch
  | none => false

/-- `ops::Index for Storage` (lookup): `self.map[id.index]` (panic if the
entry is absent) then `assert_eq!(epoch, id.epoch)`. -/
def Storage.index (s : Storage T) (h : Id) : Except HubError T :=
  match vmGet s.map h.index with
  | none => .error .IndexOutOfBounds
  | some (v, e) => if e = h.epoch then .ok v else .error .StaleHandle

/-- `Registry<T, I>` with the `local` feature: an `IdentityManager` and a
`Storage`. -/
structure Registry (T : Type) where
  identity : IdentityManager
  data : Storage T
  deriving DecidableEq, Repr

/-- `Registry::default()`. -/
def Registry.empty (T : Type) : Registry T := ⟨.empty, ⟨[]⟩⟩

/-- `Registry::register`: the map insertion happens first, then
`assert!(old.is_none())`; on an occupied slot the error is raised with
the new value already stored. -/
def Registry.register (r : Registry T) (h : Id) (v : T) :
    Registry T × Except HubError Unit :=
  let p := vmInsert r.data.map h.index (v, h.epoch)
  ({ r with data := ⟨p.2⟩ },
    if p.1.isSome then .error .AlreadyRegistered else .ok ())

/-- `Registry::register_local`: `identity.alloc()` then `register`. -/
def Registry.registerLocal (r : Registry T) (v : T) :
    Registry T × Except HubError Id :=
  let p := r.identity.alloc
  match p.2 with
  | .error e => ({ r with identity := p.1 }, .error e)
  | .ok h =>
    let q := Registry.register { r with identity := p.1 } h v
    (q.1, q.2.map fun _ => h)

/-- `Registry::unregister`, source order: first `identity.lock().free(id)`
(so a failing free aborts before the map is touched, and a succeeding
free mutates the identity before the removal), then
`map.remove(index).unwrap()`, then `assert_eq!(epoch, id.epoch)`. -/
def Registry.unregister (r : Registry T) (dbg : Bool) (h : Id) :
    Registry T × Except HubError T :=
  let p := r.identity.free dbg h
  match p.2 with
  | .error e => ({ r with identity := p.1 }, .error e)
  | .ok _ =>
    let q := vmRemove r.data.map h.index
    let r' : Registry T := { identity := p.1, data := ⟨q.2⟩ }
    match q.1 with
    | none => (r', .error .UnwrapFailed)
    | some (v, e) =>
      (r', if e = h.epoch then .ok v else .error .StaleHandle)

/-! ### Claim C1 -/

/-- C1 (counterexample): on a registry whose slot 0 holds payload `10` at
generation `1`, `register ⟨0, 1⟩ 20` does fail with `AlreadyRegistered`,
but the slot table is *changed* by the failed call: the insertion runs
before the occupancy assertion, so the slot now holds `20` and the
previously stored payload is gone — refuting the claim that the slot
table is left unchanged. -/
theorem C1_counterexample :
    ((Registry.register (⟨⟨[], [1]⟩, ⟨[some (10, 1)]⟩⟩ : Registry Nat) ⟨0, 1⟩ 20).2
        = .error .AlreadyRegistered) ∧
    (Registry.register (⟨⟨[], [1]⟩, ⟨[some (10, 1)]⟩⟩ : Registry Nat) ⟨0, 1⟩ 20).1.data
        ≠ (⟨⟨[], [1]⟩, ⟨[some (10, 1)]⟩⟩ : Registry Nat).data := by
  decide

/-- C1 (amended): for every registry state and every handle whose index
already holds a live payload, `register` fails with `AlreadyRegistered`,
but the insertion happens before the check: afterwards the slot holds the
*new* payload tagged with the handle's generation (the previous payload is
lost), while the identity manager and every other slot are unchanged. -/
theorem C1_amended {T : Type} (r : Registry T) (h : Id) (v w : T) (e : Nat)
    (hocc : vmGet r.data.map h.index = some (w, e)) :
    (r.register h v).2 = .error .AlreadyRegistered ∧
    vmGet (r.register h v).1.data.map h.index = some (v, h.epoch) ∧
    (r.register h v).1.identity = r.identity ∧
    ∀ j, j ≠ h.index → vmGet (r.register h v).1.data.map j = vmGet r.data.map j := by
  simp only [vmGet, List.getD_eq_getElem?_getD] at hocc
  have hlt : h.index < r.data.map.length := by
    by_contra hge
    push_neg at hge
    rw [List.getElem?_eq_none hge] at hocc
    simp at hocc
  have hsome : r.data.map[h.index]? = some (some (w, e)) := by
    cases hx : r.data.map[h.index]? with
    | none => rw [hx] at hocc; simp at hocc
    | some o => rw [hx] at hocc; simp at hocc; rw [hocc]
  have hrep : h.index + 1 - r.data.map.length = 0 := by omega
  refine ⟨?_, ?_, rfl, ?_⟩
  · simp [Registry.register, vmInsert, List.getD_eq_getElem?_getD, hsome]
  · simp only [Registry.register, vmInsert, hrep, List.replicate_zero,
      List.append_nil, vmGet, List.getD_eq_getElem?_getD]
    rw [List.getElem?_set_eq_of_lt _ hlt]
    rfl
  · intro j hj
    simp only [Registry.register, vmInsert, hrep, List.replicate_zero,
      List.append_nil, vmGet, List.getD_eq_getElem?_getD]
    rw [List.getElem?_set_ne (fun hh => hj hh.symm)]

/-- C1 (witness for the amended theorem), at the registry of the
counterexample. -/
theorem C1_amended_witness :
    ((Registry.register (⟨⟨[], [1]⟩, ⟨[some (10, 1)]⟩⟩ : Registry Nat) ⟨0, 1⟩ 20).2
        = .error .AlreadyRegistered) ∧
    vmGet (Registry.register (⟨⟨[], [1]⟩, ⟨[some (10, 1)]⟩⟩ : Registry Nat)
        ⟨0, 1⟩ 20).1.data.map 0 = some (20, 1) ∧
    (Registry.register (⟨⟨[], [1]⟩, ⟨[some (10, 1)]⟩⟩ : Registry Nat) ⟨0, 1⟩ 20).1.identity
        = (⟨⟨[], [1]⟩, ⟨[some (10, 1)]⟩⟩ : Registry Nat).identity := by
  have h := C1_amended (⟨⟨[], [1]⟩, ⟨[some (10, 1)]⟩⟩ : Registry Nat) ⟨0, 1⟩ 20 10 1
    (by decide)
  exact ⟨h.1, h.2.1, h.2.2.1⟩

/-! ### Claim C2 -/

/-- C2 (counterexample): on a registry whose slot 0 holds payload `7` at
generation `5` while the identity manager stores generation `2` with
index 0 already free-listed (such a state arises from `register_local`,
`unregister`, then an externally-issued `register`), `unregister` with the
stale handle `⟨0, 1⟩` in a debug build fails with `DoubleFree`, not
`StaleHandle`: the identity is freed first, and its debug free-list
assertion fires before any generation is compared — refuting the claim
that a generation-mismatched `unregister` fails with `StaleHandle`. -/
theorem C2_counterexample :
    ((Registry.unregister (⟨⟨[0], [2]⟩, ⟨[some (7, 5)]⟩⟩ : Registry Nat) true ⟨0, 1⟩).2
        = .error .DoubleFree) ∧
    HubError.DoubleFree ≠ HubError.StaleHandle := by
  decide

/-- C2 (amended): `unregister` frees the identity *first* and removes the
payload only afterwards; when the identity's stored generation at the
handle's index disagrees with the handle's generation, the call fails
before the payload is removed — with `DoubleFree` in debug builds when
the index is already on the free-list, otherwise with `StaleHandle` —
and the whole registry (identity manager and slot table) is unchanged. -/
theorem C2_amended {T : Type} (dbg : Bool) (r : Registry T) (h : Id) (e : Nat)
    (he : r.identity.epochs[h.index]? = some e) (hne : e ≠ h.epoch) :
    (r.unregister dbg h).1 = r ∧
    (r.unregister dbg h).2 = .error
      (if dbg && r.identity.freeList.contains h.index then .DoubleFree
       else .StaleHandle) := by
  by_cases hc : dbg = true ∧ h.index ∈ r.identity.freeList
  · simp [Registry.unregister, IdentityManager.free, hc]
  · simp [Registry.unregister, IdentityManager.free, hc, he, hne]

/-- C2 (witness for the amended theorem): a release-build `unregister`
with a stale handle fails with `StaleHandle` and leaves the registry
unchanged. -/
theorem C2_amended_witness :
    ((Registry.unregister (⟨⟨[0], [2]⟩, ⟨[some (7, 5)]⟩⟩ : Registry Nat) false ⟨0, 1⟩).1
        = (⟨⟨[0], [2]⟩, ⟨[some (7, 5)]⟩⟩ : Registry Nat)) ∧
    ((Registry.unregister (⟨⟨[0], [2]⟩, ⟨[some (7, 5)]⟩⟩ : Registry Nat) false ⟨0, 1⟩).2
        = .error .StaleHandle) := by
  have h := C2_amended false (⟨⟨[0], [2]⟩, ⟨[some (7, 5)]⟩⟩ : Registry Nat) ⟨0, 1⟩ 2
    rfl (by decide)
  exact ⟨h.1, h.2⟩

/-! ### Claim C5 -/

/-- C5 (counterexample): in a release build (`dbg = false`, where
`cfg!(debug_assertions)` is false and the free-list containment assertion
is compiled out), freeing the same handle twice fails on the second call
with `StaleHandle` — the generation check, not the double-free check —
refuting the claim that the second call fails with `DoubleFree`
unconditionally in all builds. -/
theorem C5_counterexample :
    ((((IdentityManager.empty.alloc).1.free false ⟨0, 1⟩).1.free false ⟨0, 1⟩).2
        = .error .StaleHandle) ∧
    ((((IdentityManager.empty.alloc).1.free false ⟨0, 1⟩).1.free false ⟨0, 1⟩).2
        ≠ .error .DoubleFree) := by
  decide

/-- C5 (amended): freeing the same live handle twice always fails on the
second call and leaves the free-list containing the index exactly once,
but the error kind depends on the build: `DoubleFree` in debug builds
(the free-list containment assertion), `StaleHandle` in release builds
(where only the generation check remains to detect it). -/
theorem C5_amended (dbg : Bool) (m : IdentityManager) (h : Id)
    (he : m.epochs[h.index]? = some h.epoch) (hnf : h.index ∉ m.freeList) :
    ((m.free dbg h).2 = .ok ()) ∧
    ((m.free dbg h).1.free dbg h).2
        = .error (if dbg then .DoubleFree else .StaleHandle) ∧
    ((m.free dbg h).1.free dbg h).1 = (m.free dbg h).1 ∧
    (m.free dbg h).1.freeList.count h.index = 1 := by
  have hlt : h.index < m.epochs.length := (List.getElem?_eq_some.mp he).1
  have hfirst : m.free dbg h
      = (⟨h.index :: m.freeList, m.epochs.set h.index ((h.epoch + 1) % U32)⟩,
          .ok ()) := by
    simp [IdentityManager.free, hnf, he]
  have hset : (m.epochs.set h.index ((h.epoch + 1) % U32))[h.index]?
      = some ((h.epoch + 1) % U32) := List.getElem?_set_eq_of_lt _ hlt
  have hne2 : (h.epoch + 1) % U32 ≠ h.epoch := by
    have hU : U32 = 4294967296 := rfl
    rw [hU]
    omega
  have hsecond :
      (⟨h.index :: m.freeList,
          m.epochs.set h.index ((h.epoch + 1) % U32)⟩ : IdentityManager).free dbg h
        = (⟨h.index :: m.freeList, m.epochs.set h.index ((h.epoch + 1) % U32)⟩,
            .error (if dbg then .DoubleFree else .StaleHandle)) := by
    cases dbg with
    | true => simp [IdentityManager.free]
    | false => simp [IdentityManager.free, hset, hne2]
  rw [hfirst, hsecond]
  refine ⟨rfl, rfl, rfl, ?_⟩
  simp [List.count_cons_self, List.count_eq_zero.mpr hnf]

/-- C5 (witness for the amended theorem): the debug-build second free of
a fresh handle fails with `DoubleFree`. -/
theorem C5_amended_witness :
    (((⟨[], [1]⟩ : IdentityManager).free true ⟨0, 1⟩).2 = .ok ()) ∧
    ((((⟨[], [1]⟩ : IdentityManager).free true ⟨0, 1⟩).1.free true ⟨0, 1⟩).2
        = .error .DoubleFree) ∧
    ((((⟨[], [1]⟩ : IdentityManager).free true ⟨0, 1⟩).1.free true ⟨0, 1⟩).1
        = ((⟨[], [1]⟩ : IdentityManager).free true ⟨0, 1⟩).1) ∧
    ((⟨[], [1]⟩ : IdentityManager).free true ⟨0, 1⟩).1.freeList.count 0 = 1 := by
  have hh := C5_amended true ⟨[], [1]⟩ ⟨0, 1⟩ rfl (by decide)
  exact ⟨hh.1, hh.2.1, hh.2.2.1, hh.2.2.2⟩

/-! ### Claim C6 -/

/-- C6 (counterexample): in a debug build, a generation-mismatched free of
a handle whose index is already on the free-list fails with `DoubleFree`,
not `StaleHandle`: the free-list containment assertion runs before the
generation comparison — refuting the claim that every
generation-mismatched free fails with `StaleHandle`. -/
theorem C6_counterexample :
    ((IdentityManager.free ⟨[0], [5]⟩ true ⟨0, 3⟩).2 = .error .DoubleFree) ∧
    ((IdentityManager.free ⟨[0], [5]⟩ true ⟨0, 3⟩).2 ≠ .error .StaleHandle) := by
  decide

/-- C6 (amended): a generation-mismatched `free` fails — with
`StaleHandle`, except in debug builds when the index is already on the
free-list, where the double-free assertion fires first and the error is
`DoubleFree` — and on this failure the manager is unchanged: the stored
generation is not incremented and the index is not pushed onto the
free-list.  A generation-mismatched lookup likewise fails with
`StaleHandle`.  (In the source these failures are `assert!` panics, not
returned values; they are modelled as returned errors.) -/
theorem C6_amended {T : Type} (dbg : Bool) (m : IdentityManager) (h : Id)
    (e : Nat) (s : Storage T) (v : T)
    (he : m.epochs[h.index]? = some e) (hne : e ≠ h.epoch) :
    (m.free dbg h).1 = m ∧
    (m.free dbg h).2 = .error
      (if dbg && m.freeList.contains h.index then .DoubleFree
       else .StaleHandle) ∧
    (vmGet s.map h.index = some (v, e) → s.index h = .error .StaleHandle) := by
  refine ⟨?_, ?_, ?_⟩
  · by_cases hc : dbg = true ∧ h.index ∈ m.freeList
    · simp [IdentityManager.free, hc]
    · simp [IdentityManager.free, hc, he, hne]
  · by_cases hc : dbg = true ∧ h.index ∈ m.freeList
    · simp [IdentityManager.free, hc]
    · simp [IdentityManager.free, hc, he, hne]
  · intro hsv
    simp [Storage.index, hsv, hne]

/-- C6 (witness for the amended theorem): a release-build stale free
fails with `StaleHandle` leaving the manager unchanged, and the matching
stale lookup fails with `StaleHandle`. -/
theorem C6_amended_witness :
    ((IdentityManager.free ⟨[], [5]⟩ false ⟨0, 3⟩).1 = ⟨[], [5]⟩) ∧
    ((IdentityManager.free ⟨[], [5]⟩ false ⟨0, 3⟩).2 = .error .StaleHandle) ∧
    (Storage.index (⟨[some (7, 5)]⟩ : Storage Nat) ⟨0, 3⟩ = .error .StaleHandle) := by
  have hh := C6_amended false ⟨[], [5]⟩ ⟨0, 3⟩ 5 (⟨[some (7, 5)]⟩ : Storage Nat) 7
    rfl (by decide)
  exact ⟨hh.1, hh.2.1, hh.2.2 (by decide)⟩

/-! ### Claim C7 -/

/-- C7: `Storage::contains` is total — it is a plain `Bool` function with
no panic path, returning `false` in particular for any out-of-range index
— and after a successful `unregister` of a handle the slot is cleared, so
`contains` on that handle returns `false` even though the index has not
been reallocated. -/
theorem C7_claim {T : Type} (s : Storage T) (dbg : Bool) (r : Registry T)
    (h : Id) (v : T) :
    (s.map.length ≤ h.index → s.contains h = false) ∧
    ((r.unregister dbg h).2 = .ok v →
      (r.unregister dbg h).1.data.contains h = false) := by
  constructor
  · intro hlen
    simp [Storage.contains, vmGet, List.getD_eq_getElem?_getD,
      List.getElem?_eq_none hlen]
  · intro hok
    have hcleared : vmGet (r.data.map.set h.index none) h.index = none := by
      rcases Nat.lt_or_ge h.index r.data.map.length with hlt | hge
      · simp [vmGet, List.getD_eq_getElem?_getD, List.getElem?_set_eq_of_lt _ hlt]
      · have hge' : (r.data.map.set h.index none).length ≤ h.index := by
          simpa using hge
        simp [vmGet, List.getD_eq_getElem?_getD, List.getElem?_eq_none hge']
    cases hfr : (r.identity.free dbg h).2 with
    | error e =>
      exfalso
      simp [Registry.unregister, hfr] at hok
    | ok u =>
      have hdata : (r.unregister dbg h).1.data = ⟨r.data.map.set h.index none⟩ := by
        cases hq : r.data.map[h.index]?.getD none with
        | none => simp [Registry.unregister, hfr, vmRemove, hq]
        | some p =>
          obtain ⟨pv, pe⟩ := p
          simp [Registry.unregister, hfr, vmRemove, hq]
      rw [hdata]
      simp [Storage.contains, hcleared]

/-- C7 (witness): an empty storage probe and a probe after an actual
`unregister`. -/
theorem C7_witness :
    (Storage.contains (⟨[]⟩ : Storage Nat) ⟨0, 1⟩ = false) ∧
    ((Registry.unregister (⟨⟨[], [1]⟩, ⟨[some (10, 1)]⟩⟩ : Registry Nat)
        true ⟨0, 1⟩).1.data.contains ⟨0, 1⟩ = false) := by
  have hh := C7_claim (⟨[]⟩ : Storage Nat) true
    (⟨⟨[], [1]⟩, ⟨[some (10, 1)]⟩⟩ : Registry Nat) ⟨0, 1⟩ 10
  exact ⟨hh.1 (by decide), hh.2 (by decide)⟩

/-! ### Claim C8 -/

/-- C8: `unregister` on a handle whose index was never allocated (out of
range of the generation table, absent from the free-list and from the
slot table) fails deterministically: the bounds-checked
`self.epochs[index]` read in `IdentityManager::free` is reached first and
fails, before any slot-table access, and the registry is unchanged.  (The
Rust out-of-bounds panic is a defined, reproducible failure, not an
out-of-bounds memory read; it is modelled as the `IndexOutOfBounds`
error.) -/
theorem C8_claim {T : Type} (dbg : Bool) (r : Registry T) (h : Id)
    (hlen : r.identity.epochs.length ≤ h.index)
    (hnf : h.index ∉ r.identity.freeList)
    (_hmap : vmGet r.data.map h.index = none) :
    (r.unregister dbg h).2 = .error .IndexOutOfBounds ∧
    (r.unregister dbg h).1 = r := by
  have hfr : r.identity.free dbg h = (r.identity, .error .IndexOutOfBounds) := by
    simp [IdentityManager.free, hnf, List.getElem?_eq_none hlen]
  constructor
  · simp [Registry.unregister, hfr]
  · simp [Registry.unregister, hfr]

/-- C8 (witness): unregistering handle `⟨5, 1⟩` from a fresh registry. -/
theorem C8_witness :
    (((Registry.empty Nat).unregister true ⟨5, 1⟩).2
        = .error .IndexOutOfBounds) ∧
    (((Registry.empty Nat).unregister true ⟨5, 1⟩).1 = Registry.empty Nat) := by
  have hh := C8_claim true (Registry.empty Nat) ⟨5, 1⟩ (by decide) (by decide)
    (by decide)
  exact ⟨hh.1, hh.2⟩

/-! ### Claim C10 -/

/-- C10: the free-list is a LIFO stack.  A successful `free` pushes the
freed index on top of the free-list, and the next `alloc` pops exactly
that index (with its already-incremented generation) — the most recently
freed index, not necessarily the smallest free one. -/
theorem C10_claim (dbg : Bool) (m : IdentityManager) (h : Id)
    (hok : (m.free dbg h).2 = .ok ()) :
    (m.free dbg h).1.freeList = h.index :: m.freeList ∧
    ((m.free dbg h).1.alloc).2 = .ok ⟨h.index, (h.epoch + 1) % U32⟩ := by
  by_cases hc : dbg = true ∧ h.index ∈ m.freeList
  · exfalso
    simp [IdentityManager.free, hc] at hok
  · cases he : m.epochs[h.index]? with
    | none =>
      exfalso
      simp [IdentityManager.free, hc, he] at hok
    | some e =>
      by_cases heq : e = h.epoch
      · have hfree : m.free dbg h
            = (⟨h.index :: m.freeList, m.epochs.set h.index ((h.epoch + 1) % U32)⟩,
                .ok ()) := by
          simp [IdentityManager.free, hc, he, heq]
        have hlt : h.index < m.epochs.length := (List.getElem?_eq_some.mp he).1
        rw [hfree]
        refine ⟨rfl, ?_⟩
        simp [IdentityManager.alloc, List.getElem?_set_eq_of_lt _ hlt]
      · exfalso
        simp [IdentityManager.free, hc, he, heq] at hok

/-- C10 (witness): with free-list `[0]`, freeing index 1 and allocating
again returns index 1 — the most recently freed index, not the smallest
free index 0. -/
theorem C10_witness :
    ((IdentityManager.free ⟨[0], [2, 1]⟩ true ⟨1, 1⟩).1.freeList = [1, 0]) ∧
    (((IdentityManager.free ⟨[0], [2, 1]⟩ true ⟨1, 1⟩).1.alloc).2
        = .ok ⟨1, 2⟩) := by
  have hh := C10_claim true ⟨[0], [2, 1]⟩ ⟨1, 1⟩ (by decide)
  exact ⟨hh.1, hh.2⟩

/-! ### Claim C4 -/

/-- C4: on any identity-manager state satisfying the structure's
invariants (free-list entries in range and not duplicated, epochs below
the `u32` bound), `alloc()` succeeds with some handle `h`, an immediate
`free(h)` succeeds, and the next `alloc()` returns index `h.index` with
generation `h.epoch + 1`. -/
theorem C4_claim (dbg : Bool) (m : IdentityManager)
    (hrange : ∀ i ∈ m.freeList, i < m.epochs.length)
    (hnd : m.freeList.Nodup)
    (hbound : ∀ e ∈ m.epochs, e + 1 < U32) :
    ∃ h : Id, (m.alloc).2 = .ok h ∧
      ((m.alloc).1.free dbg h).2 = .ok () ∧
      (((m.alloc).1.free dbg h).1.alloc).2 = .ok ⟨h.index, h.epoch + 1⟩ := by
  cases hfl : m.freeList with
  | nil =>
    have h1 : m.alloc = (⟨[], m.epochs ++ [1]⟩, .ok ⟨m.epochs.length, 1⟩) := by
      simp [IdentityManager.alloc, hfl]
    have hc : (m.epochs ++ [1])[m.epochs.length]? = some 1 :=
      List.getElem?_concat_length _ _
    have hmod2 : (1 + 1) % U32 = 2 := rfl
    have h2 : (⟨[], m.epochs ++ [1]⟩ : IdentityManager).free dbg ⟨m.epochs.length, 1⟩
        = (⟨[m.epochs.length], (m.epochs ++ [1]).set m.epochs.length 2⟩, .ok ()) := by
      simp [IdentityManager.free, hc, hmod2]
    have hlen : m.epochs.length < (m.epochs ++ [1]).length := by simp
    have h3 : (⟨[m.epochs.length], (m.epochs ++ [1]).set m.epochs.length 2⟩ :
          IdentityManager).alloc
        = (⟨[], (m.epochs ++ [1]).set m.epochs.length 2⟩, .ok ⟨m.epochs.length, 2⟩) := by
      simp [IdentityManager.alloc, List.getElem?_set_eq_of_lt _ hlen]
    exact ⟨⟨m.epochs.length, 1⟩, by rw [h1], by rw [h1, h2], by rw [h1, h2, h3]⟩
  | cons i rest =>
    have hi : i < m.epochs.length := hrange i (by rw [hfl]; exact List.mem_cons_self i rest)
    obtain ⟨e, he⟩ : ∃ e, m.epochs[i]? = some e :=
      ⟨m.epochs[i], List.getElem?_eq_getElem hi⟩
    have h1 : m.alloc = ({ m with freeList := rest }, .ok ⟨i, e⟩) := by
      simp [IdentityManager.alloc, hfl, he]
    have hnotin : i ∉ rest := by
      rw [hfl] at hnd
      exact (List.nodup_cons.mp hnd).1
    have hmod : (e + 1) % U32 = e + 1 :=
      Nat.mod_eq_of_lt (hbound e (List.getElem?_mem he))
    have h2 : ({ m with freeList := rest } : IdentityManager).free dbg ⟨i, e⟩
        = (⟨i :: rest, m.epochs.set i (e + 1)⟩, .ok ()) := by
      simp [IdentityManager.free, hnotin, he, hmod]
    have h3 : (⟨i :: rest, m.epochs.set i (e + 1)⟩ : IdentityManager).alloc
        = (⟨rest, m.epochs.set i (e + 1)⟩, .ok ⟨i, e + 1⟩) := by
      simp [IdentityManager.alloc, List.getElem?_set_eq_of_lt _ hi]
    exact ⟨⟨i, e⟩, by rw [h1], by rw [h1, h2], by rw [h1, h2, h3]⟩

/-- C4 (witness): from the default (empty) manager the cycle yields
`⟨0, 1⟩`, then a second `alloc` yields `⟨0, 2⟩`. -/
theorem C4_witness :
    ∃ h : Id, (IdentityManager.empty.alloc).2 = .ok h ∧
      ((IdentityManager.empty.alloc).1.free true h).2 = .ok () ∧
      (((IdentityManager.empty.alloc).1.free true h).1.alloc).2
          = .ok ⟨h.index, h.epoch + 1⟩ :=
  C4_claim true IdentityManager.empty (by simp [IdentityManager.empty])
    (by simp [IdentityManager.empty]) (by simp [IdentityManager.empty])

/-! ### Helper lemmas on how `alloc`/`free`/`unregister` act on stored
generations, shared by the generation-monotonicity claim. -/

/-- `alloc` never changes an existing stored generation. -/
theorem alloc_epochs_pres (m : IdentityManager) (i e : Nat)
    (he : m.epochs[i]? = some e) :
    (m.alloc).1.epochs[i]? = some e := by
  cases hfl : m.freeList with
  | nil =>
    have hlt : i < m.epochs.length := (List.getElem?_eq_some.mp he).1
    have : (m.epochs ++ [1])[i]? = some e := by
      rw [List.getElem?_append_left hlt]
      exact he
    simp [IdentityManager.alloc, hfl, this]
  | cons j rest =>
    cases hx : m.epochs[j]? with
    | some e2 => simp [IdentityManager.alloc, hfl, hx, he]
    | none => simp [IdentityManager.alloc, hfl, hx, he]

/-- How `free` acts on the stored generation at an arbitrary index `i`:
either it is untouched (and then a successful free concerned a different
index), or the free succeeded at exactly `i` and incremented it. -/
theorem free_epochs_char (dbg : Bool) (m : IdentityManager) (h : Id) (i e : Nat)
    (he : m.epochs[i]? = some e) (hbound : e + 1 < U32) :
    ((m.free dbg h).1.epochs[i]? = some e ∧
      ((m.free dbg h).2 = .ok () → i ≠ h.index)) ∨
    ((m.free dbg h).1.epochs[i]? = some (e + 1) ∧
      (m.free dbg h).2 = .ok () ∧ i = h.index) := by
  by_cases hc : dbg = true ∧ h.index ∈ m.freeList
  · left
    refine ⟨?_, ?_⟩
    · simp [IdentityManager.free, hc, he]
    · intro hok
      exfalso
      simp [IdentityManager.free, hc] at hok
  · cases hx : m.epochs[h.index]? with
    | none =>
      left
      refine ⟨?_, ?_⟩
      · simp [IdentityManager.free, hc, hx, he]
      · intro hok
        exfalso
        simp [IdentityManager.free, hc, hx] at hok
    | some ex =>
      by_cases hex : ex = h.epoch
      · by_cases hih : i = h.index
        · right
          have hee : ex = e := by
            rw [hih] at he
            rw [he] at hx
            exact (Option.some.inj hx).symm
          have hlt : h.index < m.epochs.length := by
            rw [hih] at he
            exact (List.getElem?_eq_some.mp he).1
          refine ⟨?_, ?_, hih⟩
          · have hmod : (h.epoch + 1) % U32 = e + 1 := by
              rw [← hex, hee]
              exact Nat.mod_eq_of_lt hbound
            have hfree : m.free dbg h
                = (⟨h.index :: m.freeList, m.epochs.set h.index (e + 1)⟩, .ok ()) := by
              simp [IdentityManager.free, hc, hx, hex, hmod]
            rw [hfree, hih]
            exact List.getElem?_set_eq_of_lt _ hlt
          · simp [IdentityManager.free, hc, hx, hex]
        · left
          refine ⟨?_, fun _ => hih⟩
          have hne : h.index ≠ i := fun hh => hih hh.symm
          simp [IdentityManager.free, hc, hx, hex, List.getElem?_set_ne hne, he]
      · left
        refine ⟨?_, ?_⟩
        · simp [IdentityManager.free, hc, hx, hex, he]
        · intro hok
          exfalso
          simp [IdentityManager.free, hc, hx, hex] at hok

/-- `unregister` only touches the identity manager through the initial
`free` call. -/
theorem unregister_identity_eq {T : Type} (dbg : Bool) (r : Registry T) (h : Id) :
    (r.unregister dbg h).1.identity = (r.identity.free dbg h).1 := by
  cases hfr : (r.identity.free dbg h).2 with
  | error er => simp [Registry.unregister, hfr]
  | ok u =>
    cases hq : r.data.map[h.index]?.getD none with
    | none => simp [Registry.unregister, hfr, vmRemove, hq]
    | some p =>
      obtain ⟨pv, pe⟩ := p
      simp [Registry.unregister, hfr, vmRemove, hq]

/-! ### Claim C9 -/

/-- C9: per-index stored generations (the `epochs` table of the identity
manager) are monotone.  Below the `u32` wraparound bound: `alloc` leaves
every existing stored generation unchanged; `free` leaves the stored
generation at any index defined and never smaller, and a successful free
of index `i` increments the stored generation at `i` by exactly one;
`register` does not touch the identity manager at all; `unregister`
touches it only through `free`, so the same bound holds. -/
theorem C9_claim {T : Type} (dbg : Bool) (r : Registry T) (v : T) (h : Id)
    (i e : Nat)
    (he : r.identity.epochs[i]? = some e) (hbound : e + 1 < U32) :
    ((r.identity.alloc).1.epochs[i]? = some e) ∧
    (((r.identity.free dbg h).1.epochs[i]?).isSome = true) ∧
    (e ≤ ((r.identity.free dbg h).1.epochs[i]?).getD 0) ∧
    ((r.identity.free dbg h).2 = .ok () → i = h.index →
      (r.identity.free dbg h).1.epochs[i]? = some (e + 1)) ∧
    ((r.register h v).1.identity = r.identity) ∧
    (((r.unregister dbg h).1.identity.epochs[i]?).isSome = true) ∧
    (e ≤ ((r.unregister dbg h).1.identity.epochs[i]?).getD 0) := by
  have hchar := free_epochs_char dbg r.identity h i e he hbound
  have hfreeSome : ((r.identity.free dbg h).1.epochs[i]?).isSome = true := by
    rcases hchar with ⟨hl, _⟩ | ⟨hr, _, _⟩
    · rw [hl]; rfl
    · rw [hr]; rfl
  have hfreeLe : e ≤ ((r.identity.free dbg h).1.epochs[i]?).getD 0 := by
    rcases hchar with ⟨hl, _⟩ | ⟨hr, _, _⟩
    · rw [hl]; simp
    · rw [hr]; simp
  have hstrict : (r.identity.free dbg h).2 = .ok () → i = h.index →
      (r.identity.free dbg h).1.epochs[i]? = some (e + 1) := by
    intro hok hih
    rcases hchar with ⟨hl, hne⟩ | ⟨hr, _, _⟩
    · exact absurd hih (hne hok)
    · exact hr
  have hunreg : (r.unregister dbg h).1.identity = (r.identity.free dbg h).1 :=
    unregister_identity_eq dbg r h
  exact ⟨alloc_epochs_pres r.identity i e he, hfreeSome, hfreeLe, hstrict, rfl,
    by rw [hunreg]; exact hfreeSome, by rw [hunreg]; exact hfreeLe⟩

/-- C9 (witness): slot 0 stores generation 3; a successful free moves it
to 4, and no operation lowers it. -/
theorem C9_witness :
    (((⟨⟨[], [3]⟩, ⟨[some (9, 3)]⟩⟩ : Registry Nat).identity.alloc).1.epochs[0]?
        = some 3) ∧
    ((((⟨⟨[], [3]⟩, ⟨[some (9, 3)]⟩⟩ : Registry Nat).identity.free false
        ⟨0, 3⟩).1.epochs[0]?).isSome = true) ∧
    (3 ≤ (((⟨⟨[], [3]⟩, ⟨[some (9, 3)]⟩⟩ : Registry Nat).identity.free false
        ⟨0, 3⟩).1.epochs[0]?).getD 0) ∧
    (((⟨⟨[], [3]⟩, ⟨[some (9, 3)]⟩⟩ : Registry Nat).identity.free false
        ⟨0, 3⟩).1.epochs[0]? = some 4) ∧
    (((⟨⟨[], [3]⟩, ⟨[some (9, 3)]⟩⟩ : Registry Nat).register ⟨0, 3⟩ 5).1.identity
        = (⟨⟨[], [3]⟩, ⟨[some (9, 3)]⟩⟩ : Registry Nat).identity) ∧
    ((((⟨⟨[], [3]⟩, ⟨[some (9, 3)]⟩⟩ : Registry Nat).unregister false
        ⟨0, 3⟩).1.identity.epochs[0]?).isSome = true) ∧
    (3 ≤ (((⟨⟨[], [3]⟩, ⟨[some (9, 3)]⟩⟩ : Registry Nat).unregister false
        ⟨0, 3⟩).1.identity.epochs[0]?).getD 0) := by
  have hh := C9_claim false (⟨⟨[], [3]⟩, ⟨[some (9, 3)]⟩⟩ : Registry Nat) 5
    ⟨0, 3⟩ 0 3 rfl (by decide)
  exact ⟨hh.1, hh.2.1, hh.2.2.1, hh.2.2.2.1 (by decide) rfl, hh.2.2.2.2.1,
    hh.2.2.2.2.2.1, hh.2.2.2.2.2.2⟩

/-! ### Claim C3: traces of alloc/free on one IdentityManager -/

/-- A single client operation on an `IdentityManager`. -/
inductive Op where
  | alloc : Op
  | free : Id → Op
  deriving DecidableEq, Repr

/-- One step of a trace: the manager state paired with the list of
currently-live handles (handles returned by successful allocations and
not yet successfully freed). -/
def step (dbg : Bool) (s : IdentityManager × List Id) (op : Op) :
    IdentityManager × List Id :=
  match op with
  | .alloc =>
    match s.1.alloc with
    | (m, .ok h) => (m, h :: s.2)
    | (m, .error _) => (m, s.2)
  | .free h =>
    match s.1.free dbg h with
    | (m, .ok _) => (m, s.2.filter (fun g => decide (g ≠ h)))
    | (m, .error _) => (m, s.2)

/-- Run a whole trace. -/
def runOps (dbg : Bool) (ops : List Op) (s : IdentityManager × List Id) :
    IdentityManager × List Id :=
  ops.foldl (step dbg) s

/-- A trace is legal when every `free` targets a currently-live handle
(the claim's precondition). -/
def legalOps (dbg : Bool) (ops : List Op) (s : IdentityManager × List Id) :
    Bool :=
  match ops with
  | [] => true
  | op :: rest =>
    (match op with
     | .alloc => true
     | .free h => decide (h ∈ s.2)) && legalOps dbg rest (step dbg s op)

/-- The inductive invariant tying the manager state to the live-handle
list: live handles carry the current stored generation of their index,
live indices are not free-listed, live indices are pairwise distinct, and
the free-list holds distinct in-range indices. -/
structure LiveInv (m : IdentityManager) (live : List Id) : Prop where
  live_epoch : ∀ g ∈ live, m.epochs[g.index]? = some g.epoch
  live_not_free : ∀ g ∈ live, g.index ∉ m.freeList
  live_inj : live.Pairwise (fun a b => a.index ≠ b.index)
  free_range : ∀ j ∈ m.freeList, j < m.epochs.length
  free_nodup : m.freeList.Nodup

/-- One legal step preserves the invariant. -/
theorem step_preserves (dbg : Bool) (s : IdentityManager × List Id) (op : Op)
    (hinv : LiveInv s.1 s.2)
    (hop : ∀ g : Id, op = Op.free g → g ∈ s.2) :
    LiveInv (step dbg s op).1 (step dbg s op).2 := by
  obtain ⟨m, live⟩ := s
  cases op with
  | alloc =>
    cases hfl : m.freeList with
    | nil =>
      have hstep : step dbg (m, live) Op.alloc
          = (⟨[], m.epochs ++ [1]⟩, (⟨m.epochs.length, 1⟩ : Id) :: live) := by
        simp [step, IdentityManager.alloc, hfl]
      rw [hstep]
      refine ⟨?_, ?_, ?_, ?_, ?_⟩
      · intro g hg
        rcases List.mem_cons.mp hg with hg | hg
        · subst hg
          exact List.getElem?_concat_length _ _
        · have hge := hinv.live_epoch g hg
          have hlt : g.index < m.epochs.length := (List.getElem?_eq_some.mp hge).1
          rw [List.getElem?_append_left hlt]
          exact hge
      · intro g _
        simp
      · refine List.pairwise_cons.mpr ⟨?_, hinv.live_inj⟩
        intro g hg
        have hge := hinv.live_epoch g hg
        have hlt : g.index < m.epochs.length := (List.getElem?_eq_some.mp hge).1
        exact fun hh => (Nat.ne_of_lt hlt) hh.symm
      · intro j hj
        simp at hj
      · simp
    | cons j rest =>
      have hjlt : j < m.epochs.length :=
        hinv.free_range j (by rw [hfl]; exact List.mem_cons_self j rest)
      obtain ⟨e, hje⟩ : ∃ e, m.epochs[j]? = some e :=
        ⟨m.epochs[j], List.getElem?_eq_getElem hjlt⟩
      have hstep : step dbg (m, live) Op.alloc
          = ({ m with freeList := rest }, (⟨j, e⟩ : Id) :: live) := by
        simp [step, IdentityManager.alloc, hfl, hje]
      rw [hstep]
      have hnd := hinv.free_nodup
      rw [hfl] at hnd
      have hjrest : j ∉ rest := (List.nodup_cons.mp hnd).1
      refine ⟨?_, ?_, ?_, ?_, ?_⟩
      · intro g hg
        rcases List.mem_cons.mp hg with hg | hg
        · subst hg
          exact hje
        · exact hinv.live_epoch g hg
      · intro g hg
        rcases List.mem_cons.mp hg with hg | hg
        · subst hg
          exact hjrest
        · have hnot := hinv.live_not_free g hg
          rw [hfl] at hnot
          exact fun hmem => hnot (List.mem_cons_of_mem _ hmem)
      · refine List.pairwise_cons.mpr ⟨?_, hinv.live_inj⟩
        intro g hg
        have hnot := hinv.live_not_free g hg
        rw [hfl] at hnot
        intro hh
        apply hnot
        rw [← hh]
        exact List.mem_cons_self j rest
      · intro i hi
        exact hinv.free_range i (by rw [hfl]; exact List.mem_cons_of_mem _ hi)
      · exact (List.nodup_cons.mp hnd).2
  | free h =>
    have hmem : h ∈ live := hop h rfl
    have hhe : m.epochs[h.index]? = some h.epoch := hinv.live_epoch h hmem
    have hhlt : h.index < m.epochs.length := (List.getElem?_eq_some.mp hhe).1
    have hhnf : h.index ∉ m.freeList := hinv.live_not_free h hmem
    have hstep : step dbg (m, live) (Op.free h)
        = (⟨h.index :: m.freeList, m.epochs.set h.index ((h.epoch + 1) % U32)⟩,
            live.filter (fun g => decide (g ≠ h))) := by
      simp [step, IdentityManager.free, hhnf, hhe]
    rw [hstep]
    have hidxne : ∀ g ∈ live, g ≠ h → g.index ≠ h.index := by
      intro g hg hgh
      have hpair := List.Pairwise.forall
        (R := fun a b : Id => a.index ≠ b.index)
        (fun _ _ hab => Ne.symm hab) hinv.live_inj
      exact hpair hg hmem hgh
    have hmemfil : ∀ g, g ∈ live.filter (fun g => decide (g ≠ h)) →
        g ∈ live ∧ g ≠ h := by
      intro g hg
      have hf := List.mem_filter.mp hg
      exact ⟨hf.1, of_decide_eq_true hf.2⟩
    refine ⟨?_, ?_, ?_, ?_, ?_⟩
    · intro g hg
      obtain ⟨hgl, hgh⟩ := hmemfil g hg
      have hne : h.index ≠ g.index := fun hh => (hidxne g hgl hgh) hh.symm
      rw [List.getElem?_set_ne hne]
      exact hinv.live_epoch g hgl
    · intro g hg
      obtain ⟨hgl, hgh⟩ := hmemfil g hg
      intro hmem2
      rcases List.mem_cons.mp hmem2 with hh | hh
      · exact (hidxne g hgl hgh) hh
      · exact hinv.live_not_free g hgl hh
    · exact hinv.live_inj.sublist (List.filter_sublist live)
    · intro i hi
      rcases List.mem_cons.mp hi with hh | hh
      · rw [hh]
        simpa using hhlt
      · have := hinv.free_range i hh
        simpa using this
    · exact List.nodup_cons.mpr ⟨hhnf, hinv.free_nodup⟩

/-- A legal trace preserves the invariant. -/
theorem runOps_preserves (dbg : Bool) (ops : List Op) :
    ∀ s : IdentityManager × List Id, LiveInv s.1 s.2 →
      legalOps dbg ops s = true →
      LiveInv (runOps dbg ops s).1 (runOps dbg ops s).2 := by
  induction ops with
  | nil =>
    intro s hinv _
    exact hinv
  | cons op rest ih =>
    intro s hinv hleg
    have hrun : runOps dbg (op :: rest) s = runOps dbg rest (step dbg s op) := rfl
    rw [hrun]
    cases op with
    | alloc =>
      have hleg2 : legalOps dbg rest (step dbg s Op.alloc) = true := by
        simpa [legalOps] using hleg
      exact ih _ (step_preserves dbg s Op.alloc hinv fun g hh => Op.noConfusion hh)
        hleg2
    | free h =>
      have hleg1 : (decide (h ∈ s.2)
          && legalOps dbg rest (step dbg s (Op.free h))) = true := by
        simpa [legalOps] using hleg
      obtain ⟨h1, h2⟩ := Bool.and_eq_true_iff.mp hleg1
      have hmem : h ∈ s.2 := of_decide_eq_true h1
      exact ih _ (step_preserves dbg s (Op.free h) hinv
        fun g hh => (Op.free.inj hh) ▸ hmem) h2

/-- C3: along any legal trace of `alloc`/`free` operations (every `free`
targets a currently-live handle) starting from the default manager, the
currently-live handles are pairwise distinct: no two concurrently-live
handles share the same `(index, generation)` pair.  Distinctness is by
slot index, so a fortiori by the full pair. -/
theorem C3_claim (dbg : Bool) (ops : List Op)
    (hleg : legalOps dbg ops (IdentityManager.empty, []) = true) :
    ((runOps dbg ops (IdentityManager.empty, [])).2).Nodup := by
  have hinv0 : LiveInv IdentityManager.empty [] := by
    refine ⟨?_, ?_, ?_, ?_, ?_⟩ <;> simp [IdentityManager.empty]
  have hfin := runOps_preserves dbg ops (IdentityManager.empty, []) hinv0 hleg
  exact hfin.live_inj.imp fun hab hEq => hab (congrArg Id.index hEq)

/-- C3 (witness): a concrete legal trace — two allocations, a free of
`⟨0, 1⟩`, and a reallocation that reuses index 0 at generation 2 — ends
with pairwise-distinct live handles. -/
theorem C3_witness :
    (legalOps true [Op.alloc, Op.alloc, Op.free ⟨0, 1⟩, Op.alloc]
        (IdentityManager.empty, []) = true) ∧
    ((runOps true [Op.alloc, Op.alloc, Op.free ⟨0, 1⟩, Op.alloc]
        (IdentityManager.empty, [])).2).Nodup :=
  ⟨by decide, C3_claim true [Op.alloc, Op.alloc, Op.free ⟨0, 1⟩, Op.alloc]
    (by decide)⟩

end Wgpu
